import Mathlib

/-!
Verification of the Telepen Numeric barcode decoder
(`src/telepen-decoder.ts`).  The decoder pipeline is embedded shallowly:
pixel and run arithmetic over `ℚ` (the source uses IEEE doubles; all the
constants involved are exact decimals), machine integers over `ℕ`/`ℤ`,
and the fallible stages return `Option`.
-/

set_option maxRecDepth 4000

set_option allowUnsafeReducibility true in
attribute [semireducible] Rat.mul Rat.inv Rat.add Rat.sub

/-- A run of consecutive pixels on one side of the threshold
(`interface Run` in the source). -/
structure Run where
  length : ℕ
  isBar : Bool
deriving DecidableEq

/-- Result record of a decode attempt (`interface DecodeResult`). -/
structure DecodeResult where
  text : String
  checksumValid : Bool
  hasStopChar : Bool
deriving DecidableEq

/-- `TeleTable` from the source: bar/space patterns for ASCII 0-127,
each a string over the characters 1 (narrow) and 3 (wide). -/
def TeleTable : List String := [
  "31313131", "1131313111", "33313111", "1111313131", "3111313111",
  "11333131", "13133131", "111111313111", "31333111", "1131113131",
  "33113131", "1111333111", "3111113131", "1113133111", "1311133111",
  "111111113131", "3131113111", "11313331", "333331", "111131113111",
  "31113331", "1133113111", "1313113111", "1111113331", "31131331",
  "113111113111", "3311113111", "1111131331", "311111113111", "1113111331",
  "1311111331", "11111111113111", "31313311", "1131311131", "33311131",
  "1111313311", "3111311131", "11333311", "13133311", "111111311131",
  "31331131", "1131113311", "33113311", "1111331131", "3111113311",
  "1113131131", "1311131131", "111111113311", "3131111131", "1131131311",
  "33131311", "111131111131", "3111131311", "1133111131", "1313111131",
  "111111131311", "3113111311", "113111111131", "3311111131", "111113111311",
  "311111111131", "111311111311", "131111111311", "11111111111131",
  "3131311111", "11313133", "333133", "111131311111", "31113133",
  "1133311111", "1313311111", "1111113133", "313333", "113111311111",
  "3311311111", "11113333", "311111311111", "11131333", "13111333",
  "11111111311111", "31311133", "1131331111", "33331111", "1111311133",
  "3111331111", "11331133", "13131133", "111111331111", "3113131111",
  "1131111133", "33111133", "111113131111", "3111111133", "111311131111",
  "131111131111", "111111111133", "31311313", "113131111111", "3331111111",
  "1111311313", "311131111111", "11331313", "13131313", "11111131111111",
  "3133111111", "1131111313", "33111313", "111133111111", "3111111313",
  "111313111111", "131113111111", "111111111313", "313111111111",
  "1131131113", "33131113", "11113111111111", "3111131113", "113311111111",
  "131311111111", "111111131113", "3113111113", "11311111111111",
  "331111111111", "111113111113", "31111111111111", "111311111113",
  "131111111113", "1111111111111111"]

/-- `TeleLens` from the source: the element count of each pattern. -/
def TeleLens : List ℕ := [
  8, 10, 8, 10, 10, 8, 8, 12, 8, 10, 8, 10, 10, 10, 10, 12, 10, 8, 6, 12,
  8, 10, 10, 10, 8, 12, 10, 10, 12, 10, 10, 14, 8, 10, 8, 10, 10, 8, 8, 12,
  8, 10, 8, 10, 10, 10, 10, 12, 10, 10, 8, 12, 10, 10, 10, 12, 10, 12, 10,
  12, 12, 12, 12, 14, 10, 8, 6, 12, 8, 10, 10, 10, 6, 12, 10, 8, 12, 8, 8,
  14, 8, 10, 8, 10, 10, 8, 8, 12, 10, 10, 8, 12, 10, 12, 12, 12, 8, 12, 10,
  10, 12, 8, 8, 14, 10, 10, 8, 12, 10, 12, 12, 12, 12, 10, 8, 14, 10, 12,
  12, 12, 10, 14, 12, 12, 14, 12, 12, 16]

/-- `START_CHAR` in the source: ASCII 95. -/
def START_CHAR : ℕ := 95

/-- `STOP_CHAR` in the source: ASCII 122. -/
def STOP_CHAR : ℕ := 122

/-- `matchPattern` from the source: the elements starting at `startIdx`
equal the pattern, where the character 1 is the element `1` and the
character 3 is the element `3` (char code minus 48). -/
def matchPattern (elements : List ℕ) (startIdx : ℕ) (pattern : String) : Bool :=
  if startIdx + pattern.length > elements.length then false
  else (List.range pattern.length).all (fun i =>
    (pattern.data.getD i ' ').toNat - 48 == elements.getD (startIdx + i) 0)

/-- `getGlyphSearchOrder` from the source: the stop character first, then
codes 27..126 (except the stop), then 17..26, then every code of 0..127
not yet listed, appended in increasing order. -/
def getGlyphSearchOrder : List ℕ :=
  let base := [STOP_CHAR] ++ (List.range' 27 100).filter (fun i => i ≠ STOP_CHAR)
    ++ List.range' 17 10
  (List.range 128).foldl (fun order i =>
    if order.contains i then order else order ++ [i]) base

/-- The start-pattern search of `decodeFromElements`: the first index
`i ≤ min (|elements| - startLen) 20` at which the start pattern matches
(the bound is computed in `ℤ`, as the source computes it in JS numbers;
a negative bound means the loop body never runs). -/
def findStartIndex (elements : List ℕ) : Option ℕ :=
  let bound : ℤ := min ((elements.length : ℤ) - (TeleLens.getD START_CHAR 0 : ℤ)) 20
  if bound < 0 then none
  else (List.range (bound.toNat + 1)).find? (fun i =>
    matchPattern elements i (TeleTable.getD START_CHAR ""))

/-- One inner iteration of the glyph-matching loop of
`decodeFromElements`: the first code in the search order whose pattern
fits and matches at `idx`. -/
def findGlyphAt (elements : List ℕ) (idx : ℕ) : Option ℕ :=
  getGlyphSearchOrder.find? (fun ascii =>
    decide (idx + TeleLens.getD ascii 0 ≤ elements.length)
      && matchPattern elements idx (TeleTable.getD ascii ""))

/-- The glyph-matching while-loop of `decodeFromElements`.  The source
loop runs while `idx < |elements| ∧ misses < 2`; every iteration strictly
increases `idx` (each `TeleLens` entry is positive, see
`teleLens_pos_on_order`), so a fuel of `|elements| + 1` is never
exhausted and the fuel-out branch is unreachable.  Returns the collected
glyphs and the `foundStopChar` flag. -/
def glyphLoop (elements : List ℕ) : ℕ → ℕ → ℕ → List ℕ → List ℕ × Bool
  | 0, _, _, glyphs => (glyphs, false)
  | fuel + 1, idx, misses, glyphs =>
    if idx < elements.length ∧ misses < 2 then
      match findGlyphAt elements idx with
      | some ascii =>
        if ascii = STOP_CHAR then (glyphs, true)
        else glyphLoop elements fuel (idx + TeleLens.getD ascii 0) 0 (glyphs ++ [ascii])
      | none => glyphLoop elements fuel (idx + 1) (misses + 1) glyphs
    else (glyphs, false)

/-- The digit string contributed by one data glyph in
`decodeGlyphsToDigits`: codes 27..126 give the two digits of
`glyph - 27` (always `≤ 99` there), codes 17..26 give the single digit
`glyph - 17`, anything else contributes nothing. -/
def glyphDigits (glyph : ℕ) : String :=
  if 27 ≤ glyph ∧ glyph ≤ 126 then
    let pairValue := glyph - 27
    if pairValue ≤ 99 then
      String.mk [Nat.digitChar (pairValue / 10), Nat.digitChar (pairValue % 10)]
    else ""
  else if 17 ≤ glyph ∧ glyph ≤ 26 then
    String.mk [Nat.digitChar (glyph - 17)]
  else ""

/-- `decodeGlyphsToDigits` from the source: checks the modulo-127
checksum carried by the last glyph, then converts the data glyphs to a
digit string; `none` on too few glyphs, checksum mismatch, or an empty
digit string. -/
def decodeGlyphsToDigits (glyphs : List ℕ) (hasStopChar : Bool) : Option DecodeResult :=
  if glyphs.length < 2 then none
  else
    let checksumGlyph := glyphs.getLastD 0
    let dataGlyphs := glyphs.dropLast
    let dataSum := dataGlyphs.foldl (fun a b => a + b) 0
    let expectedChecksum := (127 - dataSum % 127) % 127
    let checksumValid := checksumGlyph == expectedChecksum
    if !checksumValid then none
    else
      let text := dataGlyphs.foldl (fun acc g => acc ++ glyphDigits g) ""
      if text.length = 0 then none
      else some ⟨text, checksumValid, hasStopChar⟩

/-- `decodeFromElements` from the source: locate the start pattern, run
the glyph-matching loop, require at least two glyphs, then validate and
decode. -/
def decodeFromElements (elements : List ℕ) : Option DecodeResult :=
  match findStartIndex elements with
  | none => none
  | some startIdx =>
    let p := glyphLoop elements (elements.length + 1)
      (startIdx + TeleLens.getD START_CHAR 0) 0 []
    if p.1.length < 2 then none
    else decodeGlyphsToDigits p.1 p.2

/-- The acceptance filter applied by `tryDecode` (and again by
`decodeScanLine` and `decodeTelepenFromCanvas`) to the result of one
attempt: a result is kept only when it exists and both `checksumValid`
and `hasStopChar` hold. -/
def acceptValidResult (result : Option DecodeResult) : Option DecodeResult :=
  match result with
  | some r => if r.checksumValid && r.hasStopChar then some r else none
  | none => none

/-- Absolute value on `ℚ`, modelling `Math.abs`. -/
def ratAbs (q : ℚ) : ℚ := if q < 0 then -q else q

/-- The sampling step of `estimateNarrowWidth`: the lengths of the runs
with indices `startIdx ≤ i < min (|runs| - 1) (startIdx + 100)`. -/
def sampleLengths (runs : List Run) (startIdx : ℕ) : List ℕ :=
  (List.range' startIdx (min (runs.length - 1) (startIdx + 100) - startIdx)).map
    (fun i => (runs.getD i ⟨0, false⟩).length)

/-- One iteration of the two-center clustering loop of
`estimateNarrowWidth`: assign each sample to the nearer center, then
move each center to the mean of its assignees (unchanged if none). -/
def kmeansStep (lengths : List ℕ) (centers : ℚ × ℚ) : ℚ × ℚ :=
  let narrow := centers.1
  let wide := centers.2
  let nearNarrow := lengths.filter (fun (len : ℕ) =>
    decide (ratAbs ((len : ℚ) - narrow) < ratAbs ((len : ℚ) - wide)))
  let nearWide := lengths.filter (fun (len : ℕ) =>
    !(decide (ratAbs ((len : ℚ) - narrow) < ratAbs ((len : ℚ) - wide))))
  let narrow2 := if nearNarrow.length > 0 then
    ((nearNarrow.foldl (fun a b => a + b) 0 : ℕ) : ℚ) / (nearNarrow.length : ℚ) else narrow
  let wide2 := if nearWide.length > 0 then
    ((nearWide.foldl (fun a b => a + b) 0 : ℕ) : ℚ) / (nearWide.length : ℚ) else wide
  (narrow2, wide2)

/-- The clustering phase of `estimateNarrowWidth`: 10 iterations of
`kmeansStep` from the initial centers `(min samples, max samples)`. -/
def kmeansCenters (lengths : List ℕ) : ℚ × ℚ :=
  (kmeansStep lengths)^[10]
    (((lengths.min?.getD 0 : ℕ) : ℚ), ((lengths.max?.getD 0 : ℕ) : ℚ))

/-- The fallback of `estimateNarrowWidth`: sort the samples ascending,
keep the lowest 30% (`Math.floor(length * 0.3)` entries; `0.3` is exact
here since every sample count is at most 100), and return the middle
entry of that prefix. -/
def percentileFallback (lengths : List ℕ) : ℚ :=
  let sorted := lengths.insertionSort (fun a b => a ≤ b)
  let narrowCandidates := sorted.take (⌊(sorted.length : ℚ) * (3/10)⌋.toNat)
  ((narrowCandidates.getD (narrowCandidates.length / 2) 0 : ℕ) : ℚ)

/-- `estimateNarrowWidth` from the source: sample up to 100 run lengths,
fail (return `0`) on fewer than 10 samples, run 10 clustering
iterations from `(min, max)`, and if the wide/narrow ratio leaves
`[2.5, 3.5]` fall back to the median of the lowest 30% of the sorted
samples. -/
def estimateNarrowWidth (runs : List Run) (startIdx : ℕ) : ℚ :=
  let lengths := sampleLengths runs startIdx
  if lengths.length < 10 then 0
  else
    let pair := kmeansCenters lengths
    let ratio := pair.2 / pair.1
    if ratio < 5/2 ∨ ratio > 7/2 then percentileFallback lengths
    else pair.1

/-- `tryDecodeWithTolerance` from the source.  The `tolerance` argument
appears in the source only in a debug-log call and never in the
computation.  Classifies each run in `[startIdx, endIdx]` as narrow `1`
or wide `3` by nearest center, dropping a trailing wide quiet-zone space
and repairing a final narrow space absorbed into it. -/
def tryDecodeWithTolerance (runs : List Run) (startIdx : ℕ) (narrowWidth : ℚ)
    (tolerance : ℚ) : Option DecodeResult :=
  let wideWidth := narrowWidth * 3
  let n := runs.length
  let lastRun := runs.getD (n - 1) ⟨0, false⟩
  let isQuietZone := !lastRun.isBar && decide ((lastRun.length : ℚ) > narrowWidth * 2)
  let addTrailingNarrow := isQuietZone && decide (startIdx < n - 1)
    && (runs.getD (n - 2) ⟨0, false⟩).isBar
  let endIdx : ℤ := if isQuietZone then (n : ℤ) - 2 else (n : ℤ) - 1
  let elements := (List.range' startIdx (endIdx + 1 - (startIdx : ℤ)).toNat).map (fun i =>
    let len : ℚ := ((runs.getD i ⟨0, false⟩).length : ℚ)
    if ratAbs (len - narrowWidth) < ratAbs (len - wideWidth) then 1 else 3)
  let elements2 := if addTrailingNarrow then elements ++ [1] else elements
  decodeFromElements elements2

/-- `tryDecode` from the source: skip the leading space runs, estimate
the narrow width, and return the first tolerance attempt whose result
passes the acceptance filter. -/
def tryDecode (runs : List Run) : Option DecodeResult :=
  let startIdx := runs.findIdx (fun r => r.isBar)
  if startIdx ≥ runs.length then none
  else
    let narrowWidth := estimateNarrowWidth runs startIdx
    if narrowWidth ≤ 0 then none
    else
      [(3 : ℚ)/10, 35/100, 4/10, 45/100, 5/10, 25/100].findSome?
        (fun tolerance => acceptValidResult
          (tryDecodeWithTolerance runs startIdx narrowWidth tolerance))

/-- The loop body of `getRunLengths`, carrying the open run
`(isBar, len)`; the final open run is flushed. -/
def runLoop (threshold : ℚ) : List ℚ → Bool → ℕ → List Run
  | [], isBar, len => [⟨len, isBar⟩]
  | v :: rest, isBar, len =>
    let currentIsBar := decide (v < threshold)
    if currentIsBar = isBar then runLoop threshold rest isBar (len + 1)
    else ⟨len, isBar⟩ :: runLoop threshold rest currentIsBar 1

/-- `getRunLengths` from the source: group the grayscale row into
maximal runs on one side of the threshold (`isBar` means strictly below
it). -/
def getRunLengths (grayscale : List ℚ) (threshold : ℚ) : List Run :=
  match grayscale with
  | [] => []
  | v :: rest => runLoop threshold rest (decide (v < threshold)) 1

/-- The histogram built by `calculateOtsuThreshold`: each value is
floored and clamped into `[0, 255]`. -/
def clampPixel (v : ℚ) : ℕ := (min 255 (max 0 ⌊v⌋)).toNat

/-- Bin `i` of the 256-bin histogram of a grayscale row. -/
def histogramOf (grayscale : List ℚ) (i : ℕ) : ℕ :=
  (grayscale.filter (fun v => clampPixel v == i)).length

/-- The threshold-selection loop of `calculateOtsuThreshold` over the
remaining bin indices, with state `(sumB, wB, maxVariance, threshold)`.
An empty foreground class (`wB = 0`) skips the bin; an empty background
class (`wF = 0`) breaks out of the loop. -/
def otsuGo (hist : ℕ → ℕ) (total : ℕ) (sum : ℚ) :
    List ℕ → ℚ → ℕ → ℚ → ℕ → ℕ
  | [], _, _, _, threshold => threshold
  | i :: rest, sumB, wB, maxVariance, threshold =>
    let wB2 := wB + hist i
    if wB2 = 0 then otsuGo hist total sum rest sumB wB2 maxVariance threshold
    else
      let wF := total - wB2
      if wF = 0 then threshold
      else
        let sumB2 := sumB + (i : ℚ) * (hist i : ℚ)
        let mB := sumB2 / (wB2 : ℚ)
        let mF := (sum - sumB2) / (wF : ℚ)
        let variance := (wB2 : ℚ) * (wF : ℚ) * (mB - mF) * (mB - mF)
        if variance > maxVariance then otsuGo hist total sum rest sumB2 wB2 variance i
        else otsuGo hist total sum rest sumB2 wB2 maxVariance threshold

/-- `calculateOtsuThreshold` from the source: maximize the between-class
variance over the 256 bins (initial threshold 128), and substitute 128
when the chosen threshold is 0 or 255. -/
def calculateOtsuThreshold (grayscale : List ℚ) : ℕ :=
  let hist := histogramOf grayscale
  let total := grayscale.length
  let sum : ℚ := ((List.range 256).map (fun (i : ℕ) => (i : ℚ) * (hist i : ℚ))).sum
  let threshold := otsuGo hist total sum (List.range 256) 0 0 0 128
  if threshold = 0 ∨ threshold = 255 then 128 else threshold

/-- `decodeScanLine` from the source: grayscale conversion of the RGBA
row, Otsu threshold, run extraction, rejection of rows with fewer than
20 runs, then a forward attempt and, if it is not fully valid, a
reversed attempt. -/
def decodeScanLine (data : List ℕ) (width : ℕ) : Option DecodeResult :=
  let grayscale := (List.range width).map (fun x =>
    (data.getD (x * 4) 0 : ℚ) * ((299 : ℚ)/1000)
      + (data.getD (x * 4 + 1) 0 : ℚ) * ((587 : ℚ)/1000)
      + (data.getD (x * 4 + 2) 0 : ℚ) * ((114 : ℚ)/1000))
  let threshold := calculateOtsuThreshold grayscale
  let runs := getRunLengths grayscale (threshold : ℚ)
  if runs.length < 20 then none
  else
    let result := tryDecode runs
    let isValid := match result with
      | some r => r.checksumValid && r.hasStopChar
      | none => false
    if isValid then result
    else
      match tryDecode runs.reverse with
      | some r => if r.checksumValid && r.hasStopChar then some r else result
      | none => result

/-! ## Helper lemmas -/

/-- `List.foldl` addition with an accumulator is addition of the sum. -/
theorem foldl_add_eq_sum (l : List ℕ) (n : ℕ) :
    l.foldl (fun a b => a + b) n = n + l.sum := by
  induction l generalizing n with
  | nil => simp
  | cons x xs ih => simp [List.foldl_cons, ih]; omega

/-- Characterization of the successful outcomes of `decodeGlyphsToDigits`:
a result exists exactly when there are at least two glyphs, the last glyph
carries the expected modulo-127 checksum, and the digit conversion of the
data glyphs is non-empty; the result is then that digit string with
`checksumValid` set and the `hasStopChar` flag passed through. -/
theorem decodeGlyphsToDigits_eq_some (glyphs : List ℕ) (stop : Bool) (r : DecodeResult) :
    decodeGlyphsToDigits glyphs stop = some r ↔
      2 ≤ glyphs.length
      ∧ glyphs.getLast?.getD 0 = (127 - glyphs.dropLast.sum % 127) % 127
      ∧ (glyphs.dropLast.foldl (fun acc g => acc ++ glyphDigits g) "").length ≠ 0
      ∧ r = ⟨glyphs.dropLast.foldl (fun acc g => acc ++ glyphDigits g) "", true, stop⟩ := by
  unfold decodeGlyphsToDigits
  simp only [foldl_add_eq_sum, Nat.zero_add, List.getLastD_eq_getLast?]
  by_cases h1 : glyphs.length < 2
  · rw [if_pos h1]
    constructor
    · intro h; cases h
    · rintro ⟨h, -⟩; omega
  · rw [if_neg h1]
    by_cases h2 : glyphs.getLast?.getD 0 = (127 - glyphs.dropLast.sum % 127) % 127
    · have hb : (glyphs.getLast?.getD 0 == (127 - glyphs.dropLast.sum % 127) % 127) = true :=
        beq_iff_eq.mpr h2
      rw [hb]
      by_cases h3 : (glyphs.dropLast.foldl (fun acc g => acc ++ glyphDigits g) "").length = 0
      · rw [if_neg (by simp), if_pos h3]
        constructor
        · intro h; cases h
        · rintro ⟨-, -, h, -⟩; exact absurd h3 h
      · rw [if_neg (by simp), if_neg h3]
        constructor
        · intro h
          injection h with h
          exact ⟨by omega, h2, h3, h.symm⟩
        · rintro ⟨-, -, -, rfl⟩
          rfl
    · have hb : (glyphs.getLast?.getD 0 == (127 - glyphs.dropLast.sum % 127) % 127) = false :=
        beq_eq_false_iff_ne.mpr h2
      rw [hb, if_pos (by simp)]
      constructor
      · intro h; cases h
      · rintro ⟨-, h, -⟩; exact absurd h h2

/-- Unfolding the digit-conversion fold of `decodeGlyphsToDigits` into the
concatenation of the glyphs' digit strings. -/
theorem foldl_append_data (l : List ℕ) (s : String) :
    (l.foldl (fun acc g => acc ++ glyphDigits g) s).data
      = s.data ++ (l.map (fun g => (glyphDigits g).data)).flatten := by
  induction l generalizing s with
  | nil => simp
  | cons g gs ih => simp [List.foldl_cons, ih, String.data_append]

/-- The digit characters for values below ten lie between 0 and 9. -/
theorem digitChar_bounds (d : ℕ) (hd : d < 10) :
    '0' ≤ Nat.digitChar d ∧ Nat.digitChar d ≤ '9' := by
  interval_cases d <;> exact ⟨by decide, by decide⟩

/-- Every character emitted by `glyphDigits` is a decimal digit. -/
theorem glyphDigits_chars (g : ℕ) (ch : Char) (h : ch ∈ (glyphDigits g).data) :
    '0' ≤ ch ∧ ch ≤ '9' := by
  unfold glyphDigits at h
  by_cases h1 : 27 ≤ g ∧ g ≤ 126
  · rw [if_pos h1, if_pos (by omega)] at h
    simp only [List.mem_cons, List.not_mem_nil, or_false] at h
    rcases h with rfl | rfl
    · exact digitChar_bounds _ (by omega)
    · exact digitChar_bounds _ (by omega)
  · rw [if_neg h1] at h
    by_cases h2 : 17 ≤ g ∧ g ≤ 26
    · rw [if_pos h2] at h
      simp only [List.mem_cons, List.not_mem_nil, or_false] at h
      subst h
      exact digitChar_bounds _ (by omega)
    · rw [if_neg h2] at h
      simp at h

/-! ## Claim theorems -/

/-- C1: for every glyph sequence of length at least 2 reaching checksum
validation, the decode succeeds only if the last glyph equals
`(127 - (sum of the data glyphs mod 127)) mod 127`, and if the received
checksum differs the attempt yields nothing. -/
theorem checksum_gate (glyphs : List ℕ) (stop : Bool) (hlen : 2 ≤ glyphs.length) :
    (∀ r, decodeGlyphsToDigits glyphs stop = some r →
        glyphs.getLastD 0 = (127 - glyphs.dropLast.sum % 127) % 127)
    ∧ (glyphs.getLastD 0 ≠ (127 - glyphs.dropLast.sum % 127) % 127 →
        decodeGlyphsToDigits glyphs stop = none) := by
  constructor
  · intro r h
    rw [List.getLastD_eq_getLast?]
    exact ((decodeGlyphsToDigits_eq_some glyphs stop r).mp h).2.1
  · intro hne
    rw [List.getLastD_eq_getLast?] at hne
    cases hd : decodeGlyphsToDigits glyphs stop with
    | none => rfl
    | some r => exact absurd ((decodeGlyphsToDigits_eq_some glyphs stop r).mp hd).2.1 hne

/-- C1 witness: the glyphs `[27, 50]` carry a wrong checksum (the expected
one is 100), so the decode yields nothing. -/
theorem checksum_gate_witness : decodeGlyphsToDigits [27, 50] false = none :=
  (checksum_gate [27, 50] false (by decide)).2 (by decide)

/-- C2: for every glyph sequence that passes the checksum gate, the
returned text is the concatenation over the data glyphs of their digit
strings (pairs for codes 27..126, single digits for 17..26, nothing
otherwise), and hence consists only of characters 0 to 9. -/
theorem digit_text_spec (glyphs : List ℕ) (stop : Bool) (r : DecodeResult)
    (h : decodeGlyphsToDigits glyphs stop = some r) :
    r.text.data = (glyphs.dropLast.map (fun g => (glyphDigits g).data)).flatten
    ∧ ∀ ch ∈ r.text.data, '0' ≤ ch ∧ ch ≤ '9' := by
  obtain ⟨-, -, -, rfl⟩ := (decodeGlyphsToDigits_eq_some glyphs stop r).mp h
  constructor
  · simpa using foldl_append_data glyphs.dropLast ""
  · intro ch hch
    simp only [foldl_append_data] at hch
    simp only [List.mem_append, List.mem_flatten, List.mem_map] at hch
    rcases hch with hch | ⟨l, ⟨g, hg, rfl⟩, hchl⟩
    · simp at hch
    · exact glyphDigits_chars g ch hchl

/-- C2 witness: glyphs `[27, 100]` (data glyph 27 with its valid checksum
100) decode to the digit pair 00. -/
theorem digit_text_spec_witness :
    (DecodeResult.mk "00" true false).text.data
        = (([27, 100] : List ℕ).dropLast.map (fun g => (glyphDigits g).data)).flatten
    ∧ ∀ ch ∈ (DecodeResult.mk "00" true false).text.data, '0' ≤ ch ∧ ch ≤ '9' :=
  digit_text_spec [27, 100] false ⟨"00", true, false⟩ (by decide)

/-- C3: an element stream whose decode carries no stop character (the stop
pattern was never matched) produces nothing once the attempt's acceptance
filter is applied, even when start, data glyphs and checksum all matched. -/
theorem stop_gate (elements : List ℕ) (r : DecodeResult)
    (hr : decodeFromElements elements = some r) (hstop : r.hasStopChar = false) :
    acceptValidResult (decodeFromElements elements) = none := by
  rw [hr]
  unfold acceptValidResult
  simp [hstop]

/-- C3 witness: the element stream of start pattern, glyph 27 and its
checksum glyph 100, with no stop pattern, decodes to a record without stop
character, and the acceptance filter rejects it. -/
theorem stop_gate_witness :
    acceptValidResult (decodeFromElements
      [1,1,1,1,1,1,1,1,1,1,3,3,1,1,1,1,1,3,1,3,3,1,3,1,1,1,3,1,1,1,1,1,1,1]) = none :=
  stop_gate [1,1,1,1,1,1,1,1,1,1,3,3,1,1,1,1,1,3,1,3,3,1,3,1,1,1,3,1,1,1,1,1,1,1]
    ⟨"00", true, false⟩ (by decide) (by decide)

/-- Sanity check for the fuel bound of `glyphLoop`: every pattern length
the matcher can advance by is positive, so each loop iteration strictly
increases `idx`. -/
theorem teleLens_pos_on_order : ∀ a ∈ getGlyphSearchOrder, 0 < TeleLens.getD a 0 := by
  decide

/-- C10: every record returned by `decodeGlyphsToDigits` has
`checksumValid = true` and non-empty text (with the stop flag passed
through); the same holds for `decodeFromElements`; and the stop flag can
indeed be `false` in a returned record. -/
theorem decode_result_invariant :
    (∀ glyphs stop r, decodeGlyphsToDigits glyphs stop = some r →
        r.checksumValid = true ∧ r.text ≠ "" ∧ r.hasStopChar = stop)
    ∧ (∀ elements r, decodeFromElements elements = some r →
        r.checksumValid = true ∧ r.text ≠ "")
    ∧ (∃ elements r, decodeFromElements elements = some r ∧ r.hasStopChar = false) := by
  have hmain : ∀ glyphs stop r, decodeGlyphsToDigits glyphs stop = some r →
      r.checksumValid = true ∧ r.text ≠ "" ∧ r.hasStopChar = stop := by
    intro glyphs stop r h
    obtain ⟨-, -, hne, rfl⟩ := (decodeGlyphsToDigits_eq_some glyphs stop r).mp h
    refine ⟨rfl, ?_, rfl⟩
    intro hempty
    simp only at hempty
    rw [hempty] at hne
    exact hne rfl
  refine ⟨hmain, ?_, ?_⟩
  · intro elements r h
    unfold decodeFromElements at h
    cases hf : findStartIndex elements with
    | none => rw [hf] at h; cases h
    | some s =>
      rw [hf] at h
      simp only at h
      split at h
      · cases h
      · exact ⟨(hmain _ _ r h).1, (hmain _ _ r h).2.1⟩
  · refine ⟨[1,1,1,1,1,1,1,1,1,1,3,3,1,1,1,1,1,3,1,3,3,1,3,1,1,1,3,1,1,1,1,1,1,1],
      ⟨"00", true, false⟩, by decide, rfl⟩

/-- C10 witness: the record decoded from glyphs `[27, 100]` has a valid
checksum, non-empty text and a false stop flag. -/
theorem decode_result_invariant_witness :
    (DecodeResult.mk "00" true false).checksumValid = true
    ∧ (DecodeResult.mk "00" true false).text ≠ ""
    ∧ (DecodeResult.mk "00" true false).hasStopChar = false :=
  decode_result_invariant.1 [27, 100] false ⟨"00", true, false⟩ (by decide)

/-- C7: the tolerance argument of `tryDecodeWithTolerance` has no
influence on element classification or on the decode result: any two
tolerance values produce the same result. -/
theorem tolerance_noninterference (runs : List Run) (startIdx : ℕ) (narrowWidth : ℚ)
    (t1 t2 : ℚ) :
    tryDecodeWithTolerance runs startIdx narrowWidth t1
      = tryDecodeWithTolerance runs startIdx narrowWidth t2 := rfl

/-- C9: for every code, the pattern in `TeleTable` has exactly
`TeleLens[code]` characters, and every character is 1 or 3. -/
theorem table_integrity : ∀ c : Fin 128,
    (TeleTable.getD (c : ℕ) "").data.length = TeleLens.getD (c : ℕ) 0
    ∧ ∀ ch ∈ (TeleTable.getD (c : ℕ) "").data, ch = '1' ∨ ch = '3' := by decide

/-- C9 witness: instantiation at code 0, whose pattern contains the
character 3. -/
theorem table_integrity_witness :
    (TeleTable.getD ((0 : Fin 128) : ℕ) "").data.length = TeleLens.getD ((0 : Fin 128) : ℕ) 0
    ∧ ('3' = '1' ∨ '3' = '3') :=
  ⟨(table_integrity 0).1, (table_integrity 0).2 '3' (by decide)⟩

/-- C8 counterexample: on the empty row the binarizer does not fail; it
returns the substituted threshold 128. -/
theorem binarizer_accepts_empty_row : calculateOtsuThreshold [] = 128 := by decide

/-- C8 amended: an empty row yields no scan-line result, but not through
a binarizer failure: the binarizer returns the fallback threshold 128 and
the empty run sequence is rejected by the fewer-than-20-runs gate. -/
theorem empty_row_rejected :
    (∀ data, decodeScanLine data 0 = none) ∧ calculateOtsuThreshold [] = 128 :=
  ⟨fun _ => rfl, by decide⟩

/-- The run lengths collected by `runLoop` sum to the open run's count
plus the remaining pixels. -/
theorem runLoop_sum (t : ℚ) (l : List ℚ) : ∀ (b : Bool) (n : ℕ),
    ((runLoop t l b n).map Run.length).sum = n + l.length := by
  induction l with
  | nil => intro b n; simp [runLoop]
  | cons v rest ih =>
    intro b n
    simp only [runLoop]
    by_cases h : decide (v < t) = b
    · rw [if_pos h, ih]
      simp; omega
    · rw [if_neg h]
      simp only [List.map_cons, List.sum_cons, ih]
      simp; omega

/-- With a positive open count, every run `runLoop` emits has positive
length. -/
theorem runLoop_pos (t : ℚ) (l : List ℚ) : ∀ (b : Bool) (n : ℕ), 0 < n →
    ∀ r ∈ runLoop t l b n, 0 < r.length := by
  induction l with
  | nil =>
    intro b n hn r hr
    simp only [runLoop, List.mem_cons, List.not_mem_nil, or_false] at hr
    subst hr
    exact hn
  | cons v rest ih =>
    intro b n hn r hr
    simp only [runLoop] at hr
    by_cases h : decide (v < t) = b
    · rw [if_pos h] at hr
      exact ih b (n + 1) (by omega) r hr
    · rw [if_neg h] at hr
      rcases List.mem_cons.mp hr with rfl | hr2
      · exact hn
      · exact ih _ 1 (by omega) r hr2

/-- `runLoop` always emits at least one run, whose side is the open
run's side. -/
theorem runLoop_head (t : ℚ) (l : List ℚ) : ∀ (b : Bool) (n : ℕ),
    ∃ r rest, runLoop t l b n = r :: rest ∧ r.isBar = b := by
  induction l with
  | nil => intro b n; exact ⟨⟨n, b⟩, [], rfl, rfl⟩
  | cons v rest ih =>
    intro b n
    simp only [runLoop]
    by_cases h : decide (v < t) = b
    · rw [if_pos h]; exact ih b (n + 1)
    · rw [if_neg h]; exact ⟨⟨n, b⟩, _, rfl, rfl⟩

/-- Adjacent runs emitted by `runLoop` lie on different sides of the
threshold. -/
theorem runLoop_chain (t : ℚ) (l : List ℚ) : ∀ (b : Bool) (n : ℕ),
    List.Chain' (fun a c => a.isBar ≠ c.isBar) (runLoop t l b n) := by
  induction l with
  | nil => intro b n; simp [runLoop]
  | cons v rest ih =>
    intro b n
    simp only [runLoop]
    by_cases h : decide (v < t) = b
    · rw [if_pos h]; exact ih b (n + 1)
    · rw [if_neg h]
      obtain ⟨r, rest2, heq, hbar⟩ := runLoop_head t rest (decide (v < t)) 1
      rw [heq, List.chain'_cons]
      refine ⟨?_, ?_⟩
      · show b ≠ r.isBar
        rw [hbar]
        exact fun hh => h hh.symm
      · rw [← heq]; exact ih _ 1

/-- C4: for every grayscale row and threshold, adjacent runs differ in
`isBar`, every run length is positive, the run lengths sum to the row
width, and the run sequence is empty exactly when the row is. -/
theorem run_length_invariants (g : List ℚ) (t : ℚ) :
    List.Chain' (fun a b => a.isBar ≠ b.isBar) (getRunLengths g t)
    ∧ (∀ r ∈ getRunLengths g t, 0 < r.length)
    ∧ ((getRunLengths g t).map Run.length).sum = g.length
    ∧ (getRunLengths g t = [] ↔ g = []) := by
  cases g with
  | nil => simp [getRunLengths]
  | cons v rest =>
    simp only [getRunLengths]
    refine ⟨runLoop_chain t rest _ 1, runLoop_pos t rest _ 1 (by omega), ?_, ?_⟩
    · rw [runLoop_sum]; simp; omega
    · constructor
      · intro h
        obtain ⟨r, rest2, heq, -⟩ := runLoop_head t rest (decide (v < t)) 1
        rw [heq] at h
        cases h
      · intro h
        cases h

/-- C4 witness: the row `[0, 200, 210, 50]` at threshold 128 produces
runs whose lengths sum to the row width 4, and the run of length 1 found
in it is positive. -/
theorem run_length_invariants_witness :
    ((getRunLengths [0, 200, 210, 50] 128).map Run.length).sum = 4
    ∧ 0 < (Run.mk 1 true).length :=
  ⟨by have h := (run_length_invariants [0, 200, 210, 50] 128).2.2.1; simpa using h,
   (run_length_invariants [0, 200, 210, 50] 128).2.1 ⟨1, true⟩ (by decide)⟩

/-- When one histogram bin holds the whole mass, the Otsu loop reaches it
with an empty foreground, finds the background empty there, and breaks
with the threshold still at its initial value. -/
theorem otsuGo_single (hist : ℕ → ℕ) (n : ℕ) (sum : ℚ) (k : ℕ)
    (hk : hist k = n) (hn : 0 < n) (hzero : ∀ j, j ≠ k → hist j = 0) :
    ∀ (l : List ℕ) (sumB maxVar : ℚ) (thr : ℕ), k ∈ l →
      otsuGo hist n sum l sumB 0 maxVar thr = thr := by
  intro l
  induction l with
  | nil => intro _ _ _ h; cases h
  | cons i rest ih =>
    intro sumB maxVar thr hmem
    simp only [otsuGo]
    by_cases hik : i = k
    · subst hik
      rw [hk, if_neg (by omega), if_pos (by omega)]
    · rw [hzero i hik, if_pos (by omega)]
      have hkr : k ∈ rest := by
        rcases List.mem_cons.mp hmem with h | h
        · exact absurd h.symm hik
        · exact h
      simpa using ih sumB maxVar thr hkr

/-- The clamped bin index of any pixel value is below 256. -/
theorem clampPixel_lt_256 (v : ℚ) : clampPixel v < 256 := by
  unfold clampPixel
  omega

/-- The histogram of a constant row puts all the mass in a single bin. -/
theorem histogramOf_replicate (c : ℚ) (n i : ℕ) :
    histogramOf (List.replicate n c) i = if clampPixel c = i then n else 0 := by
  unfold histogramOf
  rw [List.filter_replicate]
  by_cases h : clampPixel c = i
  · simp [h]
  · simp [h]

/-- C5: on every non-empty constant grayscale row the binarizer yields
threshold 128: the single-bin histogram never updates the initial 128,
and 128 is not substituted. -/
theorem otsu_constant_input (c : ℚ) (n : ℕ) (hn : 0 < n) :
    calculateOtsuThreshold (List.replicate n c) = 128 := by
  unfold calculateOtsuThreshold
  simp only [List.length_replicate]
  rw [otsuGo_single (histogramOf (List.replicate n c)) n _ (clampPixel c)
    (by rw [histogramOf_replicate, if_pos rfl]) hn
    (fun j hj => by rw [histogramOf_replicate, if_neg (fun he => hj he.symm)])
    (List.range 256) 0 0 128 (List.mem_range.mpr (clampPixel_lt_256 c))]
  norm_num

/-- C5 witness: three pixels of value 200 yield threshold 128. -/
theorem otsu_constant_input_witness :
    calculateOtsuThreshold (List.replicate 3 200) = 128 :=
  otsu_constant_input 200 3 (by decide)

/-- Reading a list through `getD` along `range'` is a drop-and-take
slice, as long as the range stays inside the list. -/
theorem range'_map_getD {α : Type} (l : List α) (d : α) : ∀ (c s : ℕ), s + c ≤ l.length →
    (List.range' s c).map (fun i => l.getD i d) = (l.drop s).take c := by
  intro c
  induction c with
  | zero => intro s h; simp
  | succ c ih =>
    intro s h
    have hs : s < l.length := by omega
    rw [List.range'_succ, List.map_cons, List.getD_eq_getElem l d hs,
      ih (s + 1) (by omega), List.drop_eq_getElem_cons hs, List.take_succ_cons]

/-- The sample list of the width estimator is the slice of run lengths
from `startIdx`, capped at 100 entries and stopping before the last
run. -/
theorem sampleLengths_eq (runs : List Run) (s : ℕ) :
    sampleLengths runs s
      = ((runs.drop s).take (min (runs.length - 1) (s + 100) - s)).map Run.length := by
  unfold sampleLengths
  by_cases h : min (runs.length - 1) (s + 100) - s = 0
  · rw [h]; simp
  · have hle : s + (min (runs.length - 1) (s + 100) - s) ≤ runs.length := by omega
    have hmap : (fun i => (runs.getD i ⟨0, false⟩).length)
        = Run.length ∘ (fun i => runs.getD i ⟨0, false⟩) := rfl
    rw [hmap, ← List.map_map, range'_map_getD runs ⟨0, false⟩ _ s hle]

/-- The number of samples the width estimator collects. -/
theorem sampleLengths_length (runs : List Run) (s : ℕ) :
    (sampleLengths runs s).length = min (runs.length - 1) (s + 100) - s := by
  unfold sampleLengths
  rw [List.length_map, List.length_range']

/-- C6: the width estimator samples the run lengths from `startIdx`,
excluding the last run and capped at 100 samples; it fails (returns the
invalid estimate 0) on fewer than 10 samples; and whenever the converged
two-center ratio leaves `[2.5, 3.5]` it returns the median of the lowest
30% of the sorted samples. -/
theorem narrow_width_estimator_spec (runs : List Run) (startIdx : ℕ) :
    sampleLengths runs startIdx
        = ((runs.drop startIdx).take
            (min (runs.length - 1) (startIdx + 100) - startIdx)).map Run.length
    ∧ (sampleLengths runs startIdx).length ≤ 100
    ∧ ((sampleLengths runs startIdx).length < 10 →
        estimateNarrowWidth runs startIdx = 0)
    ∧ (¬ (sampleLengths runs startIdx).length < 10 →
        ((kmeansCenters (sampleLengths runs startIdx)).2
            / (kmeansCenters (sampleLengths runs startIdx)).1 < 5/2
          ∨ (kmeansCenters (sampleLengths runs startIdx)).2
            / (kmeansCenters (sampleLengths runs startIdx)).1 > 7/2) →
        estimateNarrowWidth runs startIdx
          = percentileFallback (sampleLengths runs startIdx)) := by
  refine ⟨sampleLengths_eq runs startIdx, ?_, ?_, ?_⟩
  · rw [sampleLengths_length]; omega
  · intro h
    unfold estimateNarrowWidth
    rw [if_pos h]
  · intro h10 hratio
    unfold estimateNarrowWidth
    rw [if_neg h10, if_pos hratio]

/-- C6 witness: twelve runs of length 5 give eleven equal samples, the
cluster centers coincide (ratio 1, outside `[2.5, 3.5]`), and the
fallback median of the lowest 30% evaluates to 5. -/
theorem narrow_width_estimator_spec_witness :
    estimateNarrowWidth (List.replicate 12 (Run.mk 5 true)) 0 = 5 := by
  have h := (narrow_width_estimator_spec (List.replicate 12 (Run.mk 5 true)) 0).2.2.2
    (by decide) (by decide)
  rw [h]
  decide
